import Mathlib

/-!
Shallow embedding of the esp-storage flash driver core
(src/esp-storage/src/common.rs) and proofs about its specified behaviour.

The firmware ROM routines (esp_rom_spiflash_read / write / erase_sector /
unlock) are external collaborators; they are modelled as an opaque
environment of status-code and data functions (the `Firmware` structure).
Machine integers are modelled as Nat (usize / u32 values are nonnegative and
none of the embedded arithmetic can overflow: the only subtraction in the
source, capacity - length, is guarded by a short-circuiting check that
length <= capacity, which Nat subtraction reproduces exactly).  The i32
status codes are modelled as Int.  Buffers are lists of byte values; the
MaybeUninit distinction of the source is erased (a buffer is its contents).

Each operation returns, besides its Result, the successor device state and
the list of firmware calls it issued, so that call-discipline properties
(unlock-once, no-call-on-validation-failure) are statable.
-/

namespace EspStorage

/-- Error taxonomy of the driver, from enum FlashStorageError in common.rs. -/
inductive FlashStorageError where
  | IoError
  | IoTimeout
  | CantUnlock
  | NotAligned
  | OutOfBounds
  | Other (code : Int)
deriving DecidableEq, Repr

instance : DecidableEq (Except FlashStorageError Unit) := fun a b => by
  cases a with
  | error ea =>
    cases b with
    | error eb =>
      cases heq : decide (ea = eb) with
      | true => exact isTrue (by rw [of_decide_eq_true heq])
      | false => exact isFalse (fun h => by cases h; simp at heq)
    | ok _ => exact isFalse (fun h => by cases h)
  | ok ua =>
    cases b with
    | error eb => exact isFalse (fun h => by cases h)
    | ok ub => exact isTrue (by cases ua; cases ub; rfl)

/-- Status-code translation, from fn check_rc in common.rs: 0 is success,
1 is IoError, 2 is IoTimeout, any other code c is Other c. -/
def check_rc (rc : Int) : Except FlashStorageError Unit :=
  match rc with
  | 0 => .ok ()
  | 1 => .error .IoError
  | 2 => .error .IoTimeout
  | _ => .error (.Other rc)

/-- One firmware call issued by the driver, identified by the routine and
its scalar arguments (lengths are byte lengths, as passed by the source). -/
inductive FwCall where
  | read (offset : Nat) (len : Nat)
  | write (offset : Nat) (len : Nat)
  | eraseSector (sector : Nat)
  | unlock
deriving DecidableEq, Repr

/-- Number of unlock calls in a list of firmware calls. -/
def countUnlocks (t : List FwCall) : Nat :=
  t.countP (fun c => match c with | .unlock => true | _ => false)

/-- Opaque model of the firmware ROM routines.  Status codes may depend on
the call arguments; the unlock status may additionally depend on how many
unlock calls were made before (so that a failing unlock followed by a
succeeding retry is expressible).  readData maps (offset, byte length,
buffer contents before the call) to the buffer contents after the call:
a routine that does not touch the buffer is modelled by returning the
input unchanged. -/
structure Firmware where
  readRc : Nat → Nat → Int
  readData : Nat → Nat → List Nat → List Nat
  writeRc : Nat → Nat → Int
  eraseRc : Nat → Int
  unlockRc : Nat → Int

/-- Device state, from struct FlashStorage in common.rs. -/
structure FlashStorage where
  capacity : Nat
  unlocked : Bool
deriving DecidableEq, Repr

namespace FlashStorage

/-- FlashStorage::WORD_SIZE. -/
def WORD_SIZE : Nat := 4

/-- FlashStorage::SECTOR_SIZE. -/
def SECTOR_SIZE : Nat := 4096

/-- Bounds check, from FlashStorage::check_bounds.  The source condition is
length > self.capacity || offset > self.capacity - length with Rust
short-circuit disjunction on usize; when the subtraction is evaluated the
first disjunct guarantees length <= capacity, so Nat truncated subtraction
gives exactly the evaluated value. -/
def check_bounds (s : FlashStorage) (offset length : Nat) :
    Except FlashStorageError Unit :=
  if length > s.capacity ∨ offset > s.capacity - length then
    .error .OutOfBounds
  else
    .ok ()

/-- Alignment check, from FlashStorage::check_alignment with const generic
ALIGN (instantiated at WORD_SIZE by every caller in the source); the
receiver is unused by the source body and is omitted here. -/
def check_alignment (ALIGN : Nat) (offset length : Nat) :
    Except FlashStorageError Unit :=
  if offset % ALIGN ≠ 0 ∨ length % ALIGN ≠ 0 then
    .error .NotAligned
  else
    .ok ()

/-- Internal read, from FlashStorage::internal_read: issues the firmware
read routine unconditionally (no validation) and translates its status.
Returns (result, buffer contents after the call, device state, calls
issued).  The device state is never modified by a read. -/
def internal_read (fw : Firmware) (s : FlashStorage) (offset : Nat)
    (bytes : List Nat) :
    Except FlashStorageError Unit × List Nat × FlashStorage × List FwCall :=
  (check_rc (fw.readRc offset bytes.length),
   fw.readData offset bytes.length bytes,
   s,
   [FwCall.read offset bytes.length])

/-- Unlock gate, from FlashStorage::unlock_once.  n is the number of unlock
calls made earlier in the device's life (it selects the firmware status for
this call).  If the device is already unlocked, no firmware call is made;
otherwise the unlock routine is invoked: a nonzero status yields CantUnlock
with the state still locked, a zero status marks the device unlocked. -/
def unlock_once (fw : Firmware) (n : Nat) (s : FlashStorage) :
    Except FlashStorageError Unit × FlashStorage × List FwCall :=
  if !s.unlocked then
    if fw.unlockRc n ≠ 0 then
      (.error .CantUnlock, s, [FwCall.unlock])
    else
      (.ok (), { s with unlocked := true }, [FwCall.unlock])
  else
    (.ok (), s, [])

/-- Internal write, from FlashStorage::internal_write: unlock_once first
(propagating its failure), then the firmware write routine, status
translated by check_rc. -/
def internal_write (fw : Firmware) (n : Nat) (s : FlashStorage)
    (offset : Nat) (bytes : List Nat) :
    Except FlashStorageError Unit × FlashStorage × List FwCall :=
  match unlock_once fw n s with
  | (.error e, s', calls) => (.error e, s', calls)
  | (.ok _, s', calls) =>
      (check_rc (fw.writeRc offset bytes.length),
       s',
       calls ++ [FwCall.write offset bytes.length])

/-- Internal erase, from FlashStorage::internal_erase: unlock_once first
(propagating its failure), then the firmware erase-sector routine, status
translated by check_rc. -/
def internal_erase (fw : Firmware) (n : Nat) (s : FlashStorage)
    (sector : Nat) :
    Except FlashStorageError Unit × FlashStorage × List FwCall :=
  match unlock_once fw n s with
  | (.error e, s', calls) => (.error e, s', calls)
  | (.ok _, s', calls) =>
      (check_rc (fw.eraseRc sector), s', calls ++ [FwCall.eraseSector sector])

/-- Public read into a possibly-uninitialized buffer, from
FlashStorage::read_uninit: bounds check, then alignment check at WORD_SIZE,
short-circuiting via the ? operator, then internal_read. -/
def read_uninit (fw : Firmware) (s : FlashStorage) (offset : Nat)
    (bytes : List Nat) :
    Except FlashStorageError Unit × List Nat × FlashStorage × List FwCall :=
  match s.check_bounds offset bytes.length with
  | .error e => (.error e, bytes, s, [])
  | .ok _ =>
      match check_alignment WORD_SIZE offset bytes.length with
      | .error e => (.error e, bytes, s, [])
      | .ok _ => internal_read fw s offset bytes

/-- Public read into an initialized buffer, from FlashStorage::read: the
source reinterprets the buffer as possibly-uninitialized bytes (a transmute
that the byte-list model erases) and forwards to read_uninit. -/
def read (fw : Firmware) (s : FlashStorage) (offset : Nat)
    (bytes : List Nat) :
    Except FlashStorageError Unit × List Nat × FlashStorage × List FwCall :=
  read_uninit fw s offset bytes

/-- Public write, from FlashStorage::write: bounds check, then alignment
check at WORD_SIZE, short-circuiting via the ? operator, then
internal_write. -/
def write (fw : Firmware) (n : Nat) (s : FlashStorage) (offset : Nat)
    (bytes : List Nat) :
    Except FlashStorageError Unit × FlashStorage × List FwCall :=
  match s.check_bounds offset bytes.length with
  | .error e => (.error e, s, [])
  | .ok _ =>
      match check_alignment WORD_SIZE offset bytes.length with
      | .error e => (.error e, s, [])
      | .ok _ => internal_write fw n s offset bytes

end FlashStorage

/-- Density table of FlashStorage::new: the match on buffer[3] & 0xf0
mapping the high nibble of the 4th identification byte to a megabyte
count, with every unlisted value mapped to 0. -/
def densityMb (b : Nat) : Nat :=
  match b &&& 0xf0 with
  | 0x00 => 1
  | 0x10 => 2
  | 0x20 => 4
  | 0x30 => 8
  | 0x40 => 16
  | _ => 0

/-- Constructor, from FlashStorage::new.  ADDR is the chip-family-specific
identification address (0x0000 or 0x1000, selected by cfg features in the
source); it is a parameter here.  The 8-byte buffer is initialized to
zeroes (MaybeUninit::new(0u8) repeated), the identification read is issued
directly through internal_read, its Result is discarded by .ok(), and the
capacity is computed from the 4th byte of the buffer the firmware left.
Returns the device and the firmware calls issued during construction. -/
def FlashStorage.new (fw : Firmware) (ADDR : Nat) :
    FlashStorage × List FwCall :=
  let storage : FlashStorage := { capacity := 0, unlocked := false }
  let r := FlashStorage.internal_read fw storage ADDR (List.replicate 8 0)
  let buffer := r.2.1
  let mb := densityMb (buffer.getD 3 0)
  ({ r.2.2.1 with capacity := mb * 1024 * 1024 }, r.2.2.2)

/-- One public operation on the device, for reasoning about sequences of
calls: the two read entry points, write, and erase (internal_erase is the
erase dispatch of common.rs; its public wrapper adds nothing to the state
or call discipline). -/
inductive Op where
  | read (offset : Nat) (bytes : List Nat)
  | readUninit (offset : Nat) (bytes : List Nat)
  | write (offset : Nat) (bytes : List Nat)
  | erase (sector : Nat)

/-- Run one operation: result, successor state, firmware calls issued.
n is the number of unlock calls made earlier in the device's life. -/
def step (fw : Firmware) (n : Nat) (s : FlashStorage) :
    Op → Except FlashStorageError Unit × FlashStorage × List FwCall
  | .read o b =>
      let r := FlashStorage.read fw s o b
      (r.1, r.2.2.1, r.2.2.2)
  | .readUninit o b =>
      let r := FlashStorage.read_uninit fw s o b
      (r.1, r.2.2.1, r.2.2.2)
  | .write o b => FlashStorage.write fw n s o b
  | .erase sec => FlashStorage.internal_erase fw n s sec

/-- Run a sequence of operations, threading the device state and the count
of unlock calls made so far; returns the final state and the concatenated
firmware call trace. -/
def runOps (fw : Firmware) : Nat → FlashStorage → List Op →
    FlashStorage × List FwCall
  | _, s, [] => (s, [])
  | n, s, op :: ops =>
      let r := step fw n s op
      let rest := runOps fw (n + countUnlocks r.2.2) r.2.1 ops
      (rest.1, r.2.2 ++ rest.2)

/-! ### Concrete firmware environments used as witnesses -/

/-- A firmware in which every routine succeeds and reads leave the buffer
as given. -/
def fwOk : Firmware :=
  { readRc := fun _ _ => 0
    readData := fun _ _ b => b
    writeRc := fun _ _ => 0
    eraseRc := fun _ => 0
    unlockRc := fun _ => 0 }

/-- A firmware in which the read routine fails (status 1) and does not
touch the destination buffer, while all other routines succeed. -/
def fwReadFails : Firmware :=
  { readRc := fun _ _ => 1
    readData := fun _ _ b => b
    writeRc := fun _ _ => 0
    eraseRc := fun _ => 0
    unlockRc := fun _ => 0 }

/-! ### Helper lemmas -/

theorem check_bounds_error_iff (s : FlashStorage) (o l : Nat) :
    s.check_bounds o l = .error .OutOfBounds ↔
      l > s.capacity ∨ o > s.capacity - l := by
  unfold FlashStorage.check_bounds
  split
  case isTrue h => exact iff_of_true rfl h
  case isFalse h => exact iff_of_false (fun hc => Except.noConfusion hc) h

theorem check_bounds_ok_iff (s : FlashStorage) (o l : Nat) :
    s.check_bounds o l = .ok () ↔ o + l ≤ s.capacity := by
  unfold FlashStorage.check_bounds
  split
  case isTrue h => exact iff_of_false (fun hc => Except.noConfusion hc) (by omega)
  case isFalse h => exact iff_of_true rfl (by omega)

theorem check_alignment_error_iff (A o l : Nat) :
    FlashStorage.check_alignment A o l = .error .NotAligned ↔
      (o % A ≠ 0 ∨ l % A ≠ 0) := by
  unfold FlashStorage.check_alignment
  split
  case isTrue h => exact iff_of_true rfl h
  case isFalse h => exact iff_of_false (fun hc => Except.noConfusion hc) h

theorem check_alignment_ok_iff (A o l : Nat) :
    FlashStorage.check_alignment A o l = .ok () ↔
      (o % A = 0 ∧ l % A = 0) := by
  unfold FlashStorage.check_alignment
  split
  case isTrue h => exact iff_of_false (fun hc => Except.noConfusion hc) (by tauto)
  case isFalse h =>
    refine iff_of_true rfl ?_
    rcases not_or.mp h with ⟨h1, h2⟩
    exact ⟨not_not.mp h1, not_not.mp h2⟩

theorem check_bounds_error_is_oob (s : FlashStorage) (o l : Nat)
    (e : FlashStorageError) (h : s.check_bounds o l = .error e) :
    e = .OutOfBounds := by
  unfold FlashStorage.check_bounds at h
  split at h
  · cases h; rfl
  · cases h

theorem check_alignment_error_is_na (A o l : Nat) (e : FlashStorageError)
    (h : FlashStorage.check_alignment A o l = .error e) :
    e = .NotAligned := by
  unfold FlashStorage.check_alignment at h
  split at h
  · cases h; rfl
  · cases h

theorem countUnlocks_append (a b : List FwCall) :
    countUnlocks (a ++ b) = countUnlocks a + countUnlocks b := by
  simp [countUnlocks, List.countP_append]

theorem step_unlocked_no_unlock (fw : Firmware) (n : Nat) (s : FlashStorage)
    (op : Op) (h : s.unlocked = true) :
    countUnlocks (step fw n s op).2.2 = 0
    ∧ (step fw n s op).2.1.unlocked = true := by
  cases op with
  | read o b =>
      simp only [step, FlashStorage.read]
      unfold FlashStorage.read_uninit
      cases hb : s.check_bounds o b.length with
      | error e => exact ⟨rfl, h⟩
      | ok u =>
          cases ha : FlashStorage.check_alignment FlashStorage.WORD_SIZE o
              b.length with
          | error e => exact ⟨rfl, h⟩
          | ok u' => exact ⟨rfl, h⟩
  | readUninit o b =>
      simp only [step]
      unfold FlashStorage.read_uninit
      cases hb : s.check_bounds o b.length with
      | error e => exact ⟨rfl, h⟩
      | ok u =>
          cases ha : FlashStorage.check_alignment FlashStorage.WORD_SIZE o
              b.length with
          | error e => exact ⟨rfl, h⟩
          | ok u' => exact ⟨rfl, h⟩
  | write o b =>
      simp only [step]
      unfold FlashStorage.write
      cases hb : s.check_bounds o b.length with
      | error e => exact ⟨rfl, h⟩
      | ok u =>
          cases ha : FlashStorage.check_alignment FlashStorage.WORD_SIZE o
              b.length with
          | error e => exact ⟨rfl, h⟩
          | ok u' =>
              unfold FlashStorage.internal_write FlashStorage.unlock_once
              rw [h]
              exact ⟨rfl, h⟩
  | erase sec =>
      simp only [step]
      unfold FlashStorage.internal_erase FlashStorage.unlock_once
      rw [h]
      exact ⟨rfl, h⟩

theorem runOps_unlocked_no_unlock (fw : Firmware) (ops : List Op) :
    ∀ (n : Nat) (s : FlashStorage), s.unlocked = true →
      countUnlocks (runOps fw n s ops).2 = 0 := by
  induction ops with
  | nil => intro n s _; rfl
  | cons op ops ih =>
      intro n s h
      obtain ⟨hc, hs⟩ := step_unlocked_no_unlock fw n s op h
      simp only [runOps]
      rw [countUnlocks_append, hc, ih _ _ hs]

theorem write_first_unlock (fw : Firmware) (n : Nat) (s : FlashStorage)
    (o : Nat) (b : List Nat) (hl : s.unlocked = false)
    (hb : s.check_bounds o b.length = .ok ())
    (ha : FlashStorage.check_alignment FlashStorage.WORD_SIZE o b.length =
      .ok ())
    (hu : fw.unlockRc n = 0) :
    FlashStorage.write fw n s o b =
      (check_rc (fw.writeRc o b.length), { s with unlocked := true },
       [FwCall.unlock, FwCall.write o b.length]) := by
  unfold FlashStorage.write
  rw [hb, ha]
  simp [FlashStorage.internal_write, FlashStorage.unlock_once, hl, hu]

theorem err_oob_ne_na :
    (Except.error FlashStorageError.OutOfBounds :
      Except FlashStorageError Unit) ≠
      Except.error FlashStorageError.NotAligned := by decide

theorem read_uninit_state_trace (fw : Firmware) (s : FlashStorage)
    (o : Nat) (b : List Nat) :
    (FlashStorage.read_uninit fw s o b).2.2.1 = s
    ∧ ((FlashStorage.read_uninit fw s o b).2.2.2 = []
       ∨ (FlashStorage.read_uninit fw s o b).2.2.2 =
           [FwCall.read o b.length]) := by
  unfold FlashStorage.read_uninit
  cases hb : s.check_bounds o b.length with
  | error e => exact ⟨rfl, Or.inl rfl⟩
  | ok u =>
      cases ha : FlashStorage.check_alignment FlashStorage.WORD_SIZE o
          b.length with
      | error e => exact ⟨rfl, Or.inl rfl⟩
      | ok u' => exact ⟨rfl, Or.inr rfl⟩

theorem write_state_trace (fw : Firmware) (n : Nat) (s : FlashStorage)
    (o : Nat) (b : List Nat) :
    (FlashStorage.write fw n s o b).2 = (s, [])
    ∨ ((FlashStorage.write fw n s o b).2 = (s, [FwCall.unlock])
       ∧ s.unlocked = false)
    ∨ ((FlashStorage.write fw n s o b).2.1.unlocked = true
       ∧ ((FlashStorage.write fw n s o b).2.2 =
             [FwCall.unlock, FwCall.write o b.length]
          ∨ (FlashStorage.write fw n s o b).2.2 =
             [FwCall.write o b.length])) := by
  unfold FlashStorage.write
  cases hb : s.check_bounds o b.length with
  | error e => exact Or.inl rfl
  | ok u =>
      cases ha : FlashStorage.check_alignment FlashStorage.WORD_SIZE o
          b.length with
      | error e => exact Or.inl rfl
      | ok u' =>
          unfold FlashStorage.internal_write FlashStorage.unlock_once
          cases hl : s.unlocked with
          | false =>
              rw [if_pos (show (!false) = true from rfl)]
              by_cases hu : fw.unlockRc n = 0
              · rw [if_neg (by simp [hu])]
                exact Or.inr (Or.inr ⟨rfl, Or.inl rfl⟩)
              · rw [if_pos hu]
                exact Or.inr (Or.inl ⟨rfl, rfl⟩)
          | true =>
              rw [if_neg (show ¬((!true) = true) from by decide)]
              exact Or.inr (Or.inr ⟨hl, Or.inr rfl⟩)

theorem erase_state_trace (fw : Firmware) (n : Nat) (s : FlashStorage)
    (sec : Nat) :
    ((FlashStorage.internal_erase fw n s sec).2 = (s, [FwCall.unlock])
       ∧ s.unlocked = false)
    ∨ ((FlashStorage.internal_erase fw n s sec).2.1.unlocked = true
       ∧ ((FlashStorage.internal_erase fw n s sec).2.2 =
             [FwCall.unlock, FwCall.eraseSector sec]
          ∨ (FlashStorage.internal_erase fw n s sec).2.2 =
             [FwCall.eraseSector sec])) := by
  unfold FlashStorage.internal_erase FlashStorage.unlock_once
  cases hl : s.unlocked with
  | false =>
      rw [if_pos (show (!false) = true from rfl)]
      by_cases hu : fw.unlockRc n = 0
      · rw [if_neg (by simp [hu])]
        exact Or.inr ⟨rfl, Or.inl rfl⟩
      · rw [if_pos hu]
        exact Or.inl ⟨rfl, rfl⟩
  | true =>
      rw [if_neg (show ¬((!true) = true) from by decide)]
      exact Or.inr ⟨hl, Or.inr rfl⟩

theorem densityMb_cases (b : Nat) :
    densityMb b = 0 ∨ densityMb b = 1 ∨ densityMb b = 2 ∨ densityMb b = 4 ∨
      densityMb b = 8 ∨ densityMb b = 16 := by
  unfold densityMb
  split <;> simp

theorem new_capacity_eq (fw : Firmware) (ADDR : Nat) :
    (FlashStorage.new fw ADDR).1.capacity =
      densityMb ((fw.readData ADDR 8 (List.replicate 8 0)).getD 3 0) *
        1024 * 1024 := rfl

theorem new_trace_eq (fw : Firmware) (ADDR : Nat) :
    (FlashStorage.new fw ADDR).2 = [FwCall.read ADDR 8] := rfl

/-! ### Claims -/

/-- C3: the bounds check fails with OutOfBounds exactly when
length > capacity or offset > capacity - length; the subtraction is only
decisive when length <= capacity (no wraparound semantics: failure is
equivalently length > capacity, or length <= capacity and
offset + length > capacity); it succeeds exactly when the whole range
[offset, offset+length) lies within the capacity; and a zero-length,
zero-offset request on a zero-capacity device succeeds. -/
theorem bounds_check_characterization : ∀ (s : FlashStorage) (o l : Nat),
    (s.check_bounds o l = .error .OutOfBounds ↔
      (l > s.capacity ∨ o > s.capacity - l))
    ∧ (s.check_bounds o l = .error .OutOfBounds ↔
      (l > s.capacity ∨ (l ≤ s.capacity ∧ o + l > s.capacity)))
    ∧ (s.check_bounds o l = .ok () ↔ o + l ≤ s.capacity)
    ∧ FlashStorage.check_bounds ⟨0, false⟩ 0 0 = .ok () := by
  intro s o l
  refine ⟨check_bounds_error_iff s o l, ?_, check_bounds_ok_iff s o l, rfl⟩
  rw [check_bounds_error_iff s o l]
  omega

/-- C6 counterexample: on a zero-capacity device the bounds check for
offset 0 and length 0 succeeds, so it is not the case that every
(offset, length) pair is rejected with OutOfBounds. -/
theorem zero_capacity_zero_request_ok :
    FlashStorage.check_bounds ⟨0, false⟩ 0 0 = .ok () := rfl

/-- C6 (amended): on a device whose capacity is 0, every bounds check with
a nonzero offset or a nonzero length fails with OutOfBounds; the only
request the bounds check accepts is the trivial offset 0, length 0 one. -/
theorem zero_capacity_rejects_all_nontrivial (s : FlashStorage) (o l : Nat)
    (hcap : s.capacity = 0) (h : ¬(o = 0 ∧ l = 0)) :
    s.check_bounds o l = .error .OutOfBounds := by
  unfold FlashStorage.check_bounds
  rw [hcap]
  split
  · rfl
  case isFalse h' => exact absurd (by omega) h

/-- C6 witness: a read request of 4 bytes at offset 0 on a zero-capacity
device is rejected with OutOfBounds. -/
theorem zero_capacity_rejects_all_nontrivial_witness :
    FlashStorage.check_bounds ⟨0, false⟩ 0 4 = .error .OutOfBounds :=
  zero_capacity_rejects_all_nontrivial ⟨0, false⟩ 0 4 rfl (by decide)

/-- C7: the alignment check at WORD_SIZE = 4 fails with NotAligned exactly
when offset or length is not a multiple of 4, and succeeds exactly when
both are multiples of 4. -/
theorem alignment_check_characterization : ∀ o l : Nat,
    (FlashStorage.check_alignment FlashStorage.WORD_SIZE o l =
        .error .NotAligned ↔ (o % 4 ≠ 0 ∨ l % 4 ≠ 0))
    ∧ (FlashStorage.check_alignment FlashStorage.WORD_SIZE o l = .ok () ↔
        (o % 4 = 0 ∧ l % 4 = 0))
    ∧ FlashStorage.WORD_SIZE = 4 := by
  intro o l
  exact ⟨check_alignment_error_iff 4 o l, check_alignment_ok_iff 4 o l, rfl⟩

/-- C8: check_rc is a total function on Int mapping 0 to success, 1 to
IoError, 2 to IoTimeout, and any other code c to Other c (preserving the
raw code); the read, write and erase dispatchers all translate their
firmware status through this one function. -/
theorem check_rc_characterization :
    check_rc 0 = .ok ()
    ∧ check_rc 1 = .error .IoError
    ∧ check_rc 2 = .error .IoTimeout
    ∧ (∀ c : Int, c ≠ 0 → c ≠ 1 → c ≠ 2 → check_rc c = .error (.Other c))
    ∧ (∀ fw s o b, (FlashStorage.internal_read fw s o b).1 =
        check_rc (fw.readRc o b.length))
    ∧ (∀ fw n s o b, s.unlocked = true →
        (FlashStorage.internal_write fw n s o b).1 =
          check_rc (fw.writeRc o b.length))
    ∧ (∀ fw n s sec, s.unlocked = true →
        (FlashStorage.internal_erase fw n s sec).1 =
          check_rc (fw.eraseRc sec)) := by
  refine ⟨rfl, rfl, rfl, ?_, fun _ _ _ _ => rfl, ?_, ?_⟩
  · intro c h0 h1 h2
    unfold check_rc
    split <;> simp_all
  · intro fw n s o b h
    simp [FlashStorage.internal_write, FlashStorage.unlock_once, h]
  · intro fw n s sec h
    simp [FlashStorage.internal_erase, FlashStorage.unlock_once, h]

/-- C8 witness: code 5 maps to Other 5, and on an unlocked device the write
dispatcher's result is the translation of the firmware write status. -/
theorem check_rc_characterization_witness :
    check_rc 5 = .error (.Other 5)
    ∧ (FlashStorage.internal_write fwOk 0 ⟨1048576, true⟩ 0 [0, 0, 0, 0]).1 =
        check_rc (fwOk.writeRc 0 4) := by
  obtain ⟨-, -, -, hother, -, hwrite, -⟩ := check_rc_characterization
  exact ⟨hother 5 (by decide) (by decide) (by decide),
         hwrite fwOk 0 ⟨1048576, true⟩ 0 [0, 0, 0, 0] rfl⟩

/-- C9: the initialized-buffer read entry point behaves identically to the
uninitialized-buffer one: same result, same buffer contents, same device
state, same firmware calls (in the source it forwards after a
reinterpreting transmute that the byte-list model erases). -/
theorem read_eq_read_uninit : ∀ fw s o b,
    FlashStorage.read fw s o b = FlashStorage.read_uninit fw s o b :=
  fun _ _ _ _ => rfl

/-- C5: capacity detection maps the high nibble of the 4th identification
byte through the fixed table 0x00 to 1, 0x10 to 2, 0x20 to 4, 0x30 to 8,
0x40 to 16 megabytes and any other nibble to 0, and sets
capacity = megabytes * 1048576; hence the capacity of a freshly constructed
device is always 0 or one of 1, 2, 4, 8, 16 MiB, a byte of 0x20 yields
exactly 4 * 1024 * 1024 and a byte of 0xF0 yields 0. -/
theorem capacity_detection_table :
    (∀ b : Nat, b &&& 0xf0 = 0x00 → densityMb b = 1)
    ∧ (∀ b : Nat, b &&& 0xf0 = 0x10 → densityMb b = 2)
    ∧ (∀ b : Nat, b &&& 0xf0 = 0x20 → densityMb b = 4)
    ∧ (∀ b : Nat, b &&& 0xf0 = 0x30 → densityMb b = 8)
    ∧ (∀ b : Nat, b &&& 0xf0 = 0x40 → densityMb b = 16)
    ∧ (∀ b : Nat, b &&& 0xf0 ≠ 0x00 → b &&& 0xf0 ≠ 0x10 →
        b &&& 0xf0 ≠ 0x20 → b &&& 0xf0 ≠ 0x30 → b &&& 0xf0 ≠ 0x40 →
        densityMb b = 0)
    ∧ densityMb 0x20 = 4 ∧ densityMb 0x20 * 1024 * 1024 = 4 * 1024 * 1024
    ∧ densityMb 0xF0 = 0
    ∧ (∀ fw ADDR, (FlashStorage.new fw ADDR).1.capacity =
        densityMb ((fw.readData ADDR 8 (List.replicate 8 0)).getD 3 0) *
          1048576)
    ∧ (∀ fw ADDR, (FlashStorage.new fw ADDR).1.capacity ∈
        ([0, 1048576, 2097152, 4194304, 8388608, 16777216] : List Nat)) := by
  refine ⟨?_, ?_, ?_, ?_, ?_, ?_, rfl, rfl, rfl, ?_, ?_⟩
  · intro b h; unfold densityMb; rw [h]
  · intro b h; unfold densityMb; rw [h]
  · intro b h; unfold densityMb; rw [h]
  · intro b h; unfold densityMb; rw [h]
  · intro b h; unfold densityMb; rw [h]
  · intro b h0 h1 h2 h3 h4; unfold densityMb; split <;> simp_all
  · intro fw ADDR
    rw [new_capacity_eq fw ADDR]
    omega
  · intro fw ADDR
    rw [new_capacity_eq fw ADDR]
    rcases densityMb_cases
        ((fw.readData ADDR 8 (List.replicate 8 0)).getD 3 0) with
      h | h | h | h | h | h <;> rw [h] <;> simp

/-- C5 witness: byte 0x25 has density nibble 0x20 and maps to 4 megabytes,
and the capacity of a device built over the all-succeeding firmware (whose
identification read leaves the zeroed buffer as is, nibble 0x00) is in the
admissible capacity set. -/
theorem capacity_detection_table_witness :
    densityMb 0x25 = 4
    ∧ (FlashStorage.new fwOk 0).1.capacity ∈
        ([0, 1048576, 2097152, 4194304, 8388608, 16777216] : List Nat) := by
  obtain ⟨-, -, h20, -, -, -, -, -, -, -, hmem⟩ := capacity_detection_table
  exact ⟨h20 0x25 (by decide), hmem fwOk 0⟩

/-- C1 counterexample: with a firmware whose identification read returns
the nonzero status 1 and leaves the (zero-initialized) buffer untouched,
FlashStorage::new still returns a device, but its capacity is 1048576 (the
zero byte's density nibble 0x00 maps to 1 MiB), not 0 as the claim
states. -/
theorem construction_read_failure_capacity_nonzero :
    fwReadFails.readRc 0 8 ≠ 0
    ∧ (FlashStorage.new fwReadFails 0).1.capacity = 1048576
    ∧ (1048576 : Nat) ≠ 0 := by
  refine ⟨by decide, by decide, by decide⟩

/-- C1 (amended): construction never fails: whatever the identification
read's status, FlashStorage::new returns a device (locked, with the read
Result discarded) whose capacity is computed from the buffer contents the
firmware left, status notwithstanding; in particular, when the failing
read leaves the zero-initialized buffer unchanged, the density nibble is
0x00 and the capacity is 1048576 (1 MiB), not 0. -/
theorem construction_swallows_read_error :
    (∀ fw ADDR, (FlashStorage.new fw ADDR).1.capacity =
        densityMb ((fw.readData ADDR 8 (List.replicate 8 0)).getD 3 0) *
          1024 * 1024
      ∧ (FlashStorage.new fw ADDR).1.unlocked = false)
    ∧ (∀ fw ADDR, fw.readRc ADDR 8 ≠ 0 →
        fw.readData ADDR 8 (List.replicate 8 0) = List.replicate 8 0 →
        (FlashStorage.new fw ADDR).1.capacity = 1048576) := by
  refine ⟨fun fw ADDR => ⟨new_capacity_eq fw ADDR, rfl⟩, ?_⟩
  intro fw ADDR _ huntouched
  rw [new_capacity_eq fw ADDR, huntouched]
  decide

/-- C1 amended witness: over the firmware whose read fails with status 1
and leaves the buffer untouched, the constructed device's capacity is
1 MiB. -/
theorem construction_swallows_read_error_witness :
    (FlashStorage.new fwReadFails 0).1.capacity = 1048576 :=
  construction_swallows_read_error.2 fwReadFails 0 (by decide) rfl

/-- C10: the 8-byte identification read of construction is issued directly
through the internal read routine with no validation: the construction
trace is exactly one firmware read call of length 8 at ADDR, even though a
bounds-checked read of any nonzero length on the capacity-0 device that
exists at that moment would be rejected with OutOfBounds (in particular the
8-byte one itself). -/
theorem identification_read_bypasses_checks :
    (∀ fw ADDR, (FlashStorage.new fw ADDR).2 = [FwCall.read ADDR 8])
    ∧ (∀ (s : FlashStorage) (o l : Nat), s.capacity = 0 → l ≠ 0 →
        s.check_bounds o l = .error .OutOfBounds)
    ∧ (∀ ADDR : Nat,
        FlashStorage.check_bounds ⟨0, false⟩ ADDR 8 = .error .OutOfBounds) := by
  refine ⟨fun fw ADDR => new_trace_eq fw ADDR, ?_, ?_⟩
  · intro s o l hcap hl
    unfold FlashStorage.check_bounds
    rw [hcap]
    split
    · rfl
    case isFalse h => exact absurd (by omega) h
  · intro ADDR
    unfold FlashStorage.check_bounds
    split
    · rfl
    case isFalse h => exact absurd (by exact Or.inl (by decide)) h

/-- C10 witness: constructing over the all-succeeding firmware at address 0
issues exactly the one unchecked 8-byte read, and the same read request
would fail the bounds check on the capacity-0 device. -/
theorem identification_read_bypasses_checks_witness :
    (FlashStorage.new fwOk 0).2 = [FwCall.read 0 8]
    ∧ FlashStorage.check_bounds ⟨0, false⟩ 0 8 = .error .OutOfBounds := by
  obtain ⟨htrace, hrej, -⟩ := identification_read_bypasses_checks
  exact ⟨htrace fwOk 0, hrej ⟨0, false⟩ 0 8 rfl (by decide)⟩

/-- C2: unlock discipline over sequences of operations.  The firmware
unlock routine is invoked only while the device is locked (an unlocked
device incurs no unlock call in any step and can never re-lock); when a
write or erase passes validation on a locked device and the unlock status
is nonzero, the whole operation returns CantUnlock with the state still
locked and the unlock call the only firmware call made; a zero unlock
status sets the state unlocked; a successfully unlocking write issues
exactly one unlock call followed by the firmware write; any step whose
trace holds a firmware write or erase-sector call ends unlocked; reads
never invoke unlock nor change the device state; and over a run starting
with a validated write whose unlock succeeds, followed by arbitrarily many
further operations (in particular N writes), the total number of unlock
calls is exactly one. -/
theorem unlock_discipline :
    (∀ fw n s op, s.unlocked = true →
        countUnlocks (step fw n s op).2.2 = 0
        ∧ (step fw n s op).2.1.unlocked = true)
    ∧ (∀ fw n s o b, s.unlocked = false →
        s.check_bounds o b.length = .ok () →
        FlashStorage.check_alignment FlashStorage.WORD_SIZE o b.length =
          .ok () →
        fw.unlockRc n ≠ 0 →
        FlashStorage.write fw n s o b =
          (.error .CantUnlock, s, [FwCall.unlock]))
    ∧ (∀ fw n s sec, s.unlocked = false → fw.unlockRc n ≠ 0 →
        FlashStorage.internal_erase fw n s sec =
          (.error .CantUnlock, s, [FwCall.unlock]))
    ∧ (∀ fw n s, s.unlocked = false → fw.unlockRc n = 0 →
        FlashStorage.unlock_once fw n s =
          (.ok (), { s with unlocked := true }, [FwCall.unlock]))
    ∧ (∀ fw n s o b, s.unlocked = false →
        s.check_bounds o b.length = .ok () →
        FlashStorage.check_alignment FlashStorage.WORD_SIZE o b.length =
          .ok () →
        fw.unlockRc n = 0 →
        FlashStorage.write fw n s o b =
          (check_rc (fw.writeRc o b.length), { s with unlocked := true },
           [FwCall.unlock, FwCall.write o b.length]))
    ∧ (∀ fw n s op o l, FwCall.write o l ∈ (step fw n s op).2.2 →
        (step fw n s op).2.1.unlocked = true)
    ∧ (∀ fw n s op sec, FwCall.eraseSector sec ∈ (step fw n s op).2.2 →
        (step fw n s op).2.1.unlocked = true)
    ∧ (∀ fw n s o b,
        (step fw n s (Op.read o b)).2.1 = s
        ∧ FwCall.unlock ∉ (step fw n s (Op.read o b)).2.2
        ∧ (step fw n s (Op.readUninit o b)).2.1 = s
        ∧ FwCall.unlock ∉ (step fw n s (Op.readUninit o b)).2.2)
    ∧ (∀ fw s o b ops, s.unlocked = false → fw.unlockRc 0 = 0 →
        s.check_bounds o b.length = .ok () →
        FlashStorage.check_alignment FlashStorage.WORD_SIZE o b.length =
          .ok () →
        countUnlocks (runOps fw 0 s (Op.write o b :: ops)).2 = 1) := by
  refine ⟨step_unlocked_no_unlock, ?_, ?_, ?_, write_first_unlock,
    ?_, ?_, ?_, ?_⟩
  · intro fw n s o b hl hb ha hu
    unfold FlashStorage.write
    rw [hb, ha]
    unfold FlashStorage.internal_write FlashStorage.unlock_once
    rw [hl, if_pos (show (!false) = true from rfl), if_pos hu]
  · intro fw n s sec hl hu
    unfold FlashStorage.internal_erase FlashStorage.unlock_once
    rw [hl, if_pos (show (!false) = true from rfl), if_pos hu]
  · intro fw n s hl hu
    unfold FlashStorage.unlock_once
    rw [hl, if_pos (show (!false) = true from rfl),
        if_neg (by simp [hu])]
  · intro fw n s op o l hmem
    cases op with
    | read o' b' =>
        obtain ⟨hs, ht⟩ := read_uninit_state_trace fw s o' b'
        have he : (step fw n s (Op.read o' b')).2.2 =
            (FlashStorage.read_uninit fw s o' b').2.2.2 := rfl
        rw [he] at hmem
        rcases ht with ht | ht <;> rw [ht] at hmem
        · exact absurd hmem (List.not_mem_nil _)
        · exact FwCall.noConfusion (List.mem_singleton.mp hmem)
    | readUninit o' b' =>
        obtain ⟨hs, ht⟩ := read_uninit_state_trace fw s o' b'
        have he : (step fw n s (Op.readUninit o' b')).2.2 =
            (FlashStorage.read_uninit fw s o' b').2.2.2 := rfl
        rw [he] at hmem
        rcases ht with ht | ht <;> rw [ht] at hmem
        · exact absurd hmem (List.not_mem_nil _)
        · exact FwCall.noConfusion (List.mem_singleton.mp hmem)
    | write o' b' =>
        rcases write_state_trace fw n s o' b' with h | ⟨h, -⟩ | ⟨h, -⟩
        · rw [show (step fw n s (Op.write o' b')).2.2 =
              (FlashStorage.write fw n s o' b').2.2 from rfl,
            congrArg Prod.snd h] at hmem
          exact absurd hmem (List.not_mem_nil _)
        · rw [show (step fw n s (Op.write o' b')).2.2 =
              (FlashStorage.write fw n s o' b').2.2 from rfl,
            congrArg Prod.snd h] at hmem
          exact FwCall.noConfusion (List.mem_singleton.mp hmem)
        · exact h
    | erase sec =>
        rcases erase_state_trace fw n s sec with ⟨h, -⟩ | ⟨h, -⟩
        · rw [show (step fw n s (Op.erase sec)).2.2 =
              (FlashStorage.internal_erase fw n s sec).2.2 from rfl,
            congrArg Prod.snd h] at hmem
          exact FwCall.noConfusion (List.mem_singleton.mp hmem)
        · exact h
  · intro fw n s op sec hmem
    cases op with
    | read o' b' =>
        obtain ⟨hs, ht⟩ := read_uninit_state_trace fw s o' b'
        have he : (step fw n s (Op.read o' b')).2.2 =
            (FlashStorage.read_uninit fw s o' b').2.2.2 := rfl
        rw [he] at hmem
        rcases ht with ht | ht <;> rw [ht] at hmem
        · exact absurd hmem (List.not_mem_nil _)
        · exact FwCall.noConfusion (List.mem_singleton.mp hmem)
    | readUninit o' b' =>
        obtain ⟨hs, ht⟩ := read_uninit_state_trace fw s o' b'
        have he : (step fw n s (Op.readUninit o' b')).2.2 =
            (FlashStorage.read_uninit fw s o' b').2.2.2 := rfl
        rw [he] at hmem
        rcases ht with ht | ht <;> rw [ht] at hmem
        · exact absurd hmem (List.not_mem_nil _)
        · exact FwCall.noConfusion (List.mem_singleton.mp hmem)
    | write o' b' =>
        rcases write_state_trace fw n s o' b' with h | ⟨h, -⟩ | ⟨h, -⟩
        · rw [show (step fw n s (Op.write o' b')).2.2 =
              (FlashStorage.write fw n s o' b').2.2 from rfl,
            congrArg Prod.snd h] at hmem
          exact absurd hmem (List.not_mem_nil _)
        · rw [show (step fw n s (Op.write o' b')).2.2 =
              (FlashStorage.write fw n s o' b').2.2 from rfl,
            congrArg Prod.snd h] at hmem
          exact FwCall.noConfusion (List.mem_singleton.mp hmem)
        · exact h
    | erase sec' =>
        rcases erase_state_trace fw n s sec' with ⟨h, -⟩ | ⟨h, -⟩
        · rw [show (step fw n s (Op.erase sec')).2.2 =
              (FlashStorage.internal_erase fw n s sec').2.2 from rfl,
            congrArg Prod.snd h] at hmem
          exact FwCall.noConfusion (List.mem_singleton.mp hmem)
        · exact h
  · intro fw n s o b
    obtain ⟨hs, ht⟩ := read_uninit_state_trace fw s o b
    refine ⟨hs, ?_, hs, ?_⟩
    · intro hmem
      have he : (step fw n s (Op.read o b)).2.2 =
          (FlashStorage.read_uninit fw s o b).2.2.2 := rfl
      rw [he] at hmem
      rcases ht with ht | ht <;> rw [ht] at hmem
      · exact absurd hmem (List.not_mem_nil _)
      · exact FwCall.noConfusion (List.mem_singleton.mp hmem)
    · intro hmem
      have he : (step fw n s (Op.readUninit o b)).2.2 =
          (FlashStorage.read_uninit fw s o b).2.2.2 := rfl
      rw [he] at hmem
      rcases ht with ht | ht <;> rw [ht] at hmem
      · exact absurd hmem (List.not_mem_nil _)
      · exact FwCall.noConfusion (List.mem_singleton.mp hmem)
  · intro fw s o b ops hl hu hb ha
    have hstep : step fw 0 s (Op.write o b) =
        (check_rc (fw.writeRc o b.length), { s with unlocked := true },
         [FwCall.unlock, FwCall.write o b.length]) := by
      simp only [step]
      exact write_first_unlock fw 0 s o b hl hb ha hu
    simp only [runOps, hstep]
    rw [countUnlocks_append]
    have hc : countUnlocks [FwCall.unlock, FwCall.write o b.length] = 1 :=
      rfl
    rw [hc, runOps_unlocked_no_unlock fw ops (0 + 1)
      { s with unlocked := true } rfl]

/-- C2 witness: two aligned, in-bounds writes on a fresh 1 MiB locked
device over the all-succeeding firmware issue exactly one unlock call. -/
theorem unlock_discipline_witness :
    countUnlocks (runOps fwOk 0 ⟨1048576, false⟩
        [Op.write 0 [0, 0, 0, 0], Op.write 4 [0, 0, 0, 0]]).2 = 1 := by
  obtain ⟨-, -, -, -, -, -, -, -, hrun⟩ := unlock_discipline
  exact hrun fwOk ⟨1048576, false⟩ 0 [0, 0, 0, 0] [Op.write 4 [0, 0, 0, 0]]
    rfl rfl (by decide) (by decide)

/-- C4: read, read_uninit and write apply the bounds check first and the
alignment check second, short-circuiting: NotAligned is returned only when
bounds pass; a request failing both checks returns OutOfBounds; and when
either validation fails the operation returns with the device state
unchanged and no firmware call issued (empty call list, so no unlock
attempt either). -/
theorem validation_order :
    (∀ fw s o b, (FlashStorage.read_uninit fw s o b).1 = .error .NotAligned →
        s.check_bounds o b.length = .ok ())
    ∧ (∀ fw s o b, s.check_bounds o b.length = .error .OutOfBounds →
        FlashStorage.check_alignment FlashStorage.WORD_SIZE o b.length =
          .error .NotAligned →
        (FlashStorage.read_uninit fw s o b).1 = .error .OutOfBounds)
    ∧ (∀ fw s o b, (s.check_bounds o b.length ≠ .ok ()
          ∨ FlashStorage.check_alignment FlashStorage.WORD_SIZE o
              b.length ≠ .ok ()) →
        (FlashStorage.read_uninit fw s o b).2.2.1 = s
        ∧ (FlashStorage.read_uninit fw s o b).2.2.2 = [])
    ∧ (∀ fw s o b, (FlashStorage.read fw s o b).1 = .error .NotAligned →
        s.check_bounds o b.length = .ok ())
    ∧ (∀ fw s o b, s.check_bounds o b.length = .error .OutOfBounds →
        FlashStorage.check_alignment FlashStorage.WORD_SIZE o b.length =
          .error .NotAligned →
        (FlashStorage.read fw s o b).1 = .error .OutOfBounds)
    ∧ (∀ fw s o b, (s.check_bounds o b.length ≠ .ok ()
          ∨ FlashStorage.check_alignment FlashStorage.WORD_SIZE o
              b.length ≠ .ok ()) →
        (FlashStorage.read fw s o b).2.2.1 = s
        ∧ (FlashStorage.read fw s o b).2.2.2 = [])
    ∧ (∀ fw n s o b, (FlashStorage.write fw n s o b).1 =
          .error .NotAligned →
        s.check_bounds o b.length = .ok ())
    ∧ (∀ fw n s o b, s.check_bounds o b.length = .error .OutOfBounds →
        FlashStorage.check_alignment FlashStorage.WORD_SIZE o b.length =
          .error .NotAligned →
        (FlashStorage.write fw n s o b).1 = .error .OutOfBounds)
    ∧ (∀ fw n s o b, (s.check_bounds o b.length ≠ .ok ()
          ∨ FlashStorage.check_alignment FlashStorage.WORD_SIZE o
              b.length ≠ .ok ()) →
        (FlashStorage.write fw n s o b).2.1 = s
        ∧ (FlashStorage.write fw n s o b).2.2 = []) := by
  have hru : ∀ fw s o b,
      (FlashStorage.read_uninit fw s o b).1 = .error .NotAligned →
      s.check_bounds o b.length = .ok () := by
    intro fw s o b h
    cases hb : s.check_bounds o b.length with
    | ok u => cases u; rfl
    | error e =>
        have he := check_bounds_error_is_oob s o b.length e hb
        subst he
        unfold FlashStorage.read_uninit at h
        rw [hb] at h
        exact absurd h err_oob_ne_na
  have hrb : ∀ fw s o b, s.check_bounds o b.length = .error .OutOfBounds →
      FlashStorage.check_alignment FlashStorage.WORD_SIZE o b.length =
        .error .NotAligned →
      (FlashStorage.read_uninit fw s o b).1 = .error .OutOfBounds := by
    intro fw s o b hb _
    unfold FlashStorage.read_uninit
    rw [hb]
  have hrc : ∀ fw s o b, (s.check_bounds o b.length ≠ .ok ()
        ∨ FlashStorage.check_alignment FlashStorage.WORD_SIZE o
            b.length ≠ .ok ()) →
      (FlashStorage.read_uninit fw s o b).2.2.1 = s
      ∧ (FlashStorage.read_uninit fw s o b).2.2.2 = [] := by
    intro fw s o b hor
    unfold FlashStorage.read_uninit
    cases hb : s.check_bounds o b.length with
    | error e => exact ⟨rfl, rfl⟩
    | ok u =>
        cases ha : FlashStorage.check_alignment FlashStorage.WORD_SIZE o
            b.length with
        | error e => exact ⟨rfl, rfl⟩
        | ok u' =>
            cases u; cases u'
            rcases hor with h | h
            · exact absurd hb h
            · exact absurd ha h
  refine ⟨hru, hrb, hrc, hru, hrb, hrc, ?_, ?_, ?_⟩
  · intro fw n s o b h
    cases hb : s.check_bounds o b.length with
    | ok u => cases u; rfl
    | error e =>
        have he := check_bounds_error_is_oob s o b.length e hb
        subst he
        unfold FlashStorage.write at h
        rw [hb] at h
        exact absurd h err_oob_ne_na
  · intro fw n s o b hb _
    unfold FlashStorage.write
    rw [hb]
  · intro fw n s o b hor
    unfold FlashStorage.write
    cases hb : s.check_bounds o b.length with
    | error e => exact ⟨rfl, rfl⟩
    | ok u =>
        cases ha : FlashStorage.check_alignment FlashStorage.WORD_SIZE o
            b.length with
        | error e => exact ⟨rfl, rfl⟩
        | ok u' =>
            cases u; cases u'
            rcases hor with h | h
            · exact absurd hb h
            · exact absurd ha h

/-- C4 witness: on a fresh 1 MiB device, write(1, 4 bytes) fails alignment
only because bounds pass, write(1048573, 4 bytes) is OutOfBounds, and the
misaligned write leaves the state unchanged with no firmware call. -/
theorem validation_order_witness :
    FlashStorage.check_bounds ⟨1048576, false⟩ 1 4 = .ok ()
    ∧ (FlashStorage.write fwOk 0 ⟨1048576, false⟩ 1048573 [0, 0, 0, 0]).1 =
        .error .OutOfBounds
    ∧ (FlashStorage.write fwOk 0 ⟨1048576, false⟩ 1 [0, 0, 0, 0]).2.1 =
        ⟨1048576, false⟩
    ∧ (FlashStorage.write fwOk 0 ⟨1048576, false⟩ 1 [0, 0, 0, 0]).2.2 =
        [] := by
  obtain ⟨-, -, -, -, -, -, hw1, hw2, hw3⟩ := validation_order
  refine ⟨hw1 fwOk 0 ⟨1048576, false⟩ 1 [0, 0, 0, 0] (by decide),
          hw2 fwOk 0 ⟨1048576, false⟩ 1048573 [0, 0, 0, 0] (by decide)
            (by decide),
          (hw3 fwOk 0 ⟨1048576, false⟩ 1 [0, 0, 0, 0]
            (Or.inr (by decide))).1,
          (hw3 fwOk 0 ⟨1048576, false⟩ 1 [0, 0, 0, 0]
            (Or.inr (by decide))).2⟩

end EspStorage
